/-
  Verification development for the WorldAlpha terrain streaming core.

  Shallow embedding of:
  - src/terrain/biomes.py    (BiomeParams, BiomeManager.get_blended_params)
  - src/terrain/chunk_manager.py (ChunkManager: request_chunk,
      process_queued_chunks, remove_distant_chunks, _generate_chunk,
      _generate_heightmap)
  - src/terrain/chunk.py     (TerrainChunk._generate_chunk_mesh,
      TerrainChunk._fast_generate_heightmap)

  Modelling conventions:
  - Python float values are modelled as rationals.  All float-valued
    operations the code performs itself (lerp, +, *, max) are exact
    operations applied to the same inputs in both places a claim compares,
    so equalities/inequalities proved here transfer to the claims about
    the code's deterministic behaviour.
  - External pure numeric functions (the C snoise2 noise and the float
    sqrt used in BiomeManager._get_biome_distance) are abstracted as
    arbitrary function parameters: they are deterministic pure functions
    of their arguments, which is the only property the code relies on.
  - Python's float('inf') value of snow_height is modelled as the `none`
    of an `Option`; a missing biome-distance (min over an empty scan)
    likewise.
  - The ChunkManager's mutable state is a record; each method is a pure
    state transformer; a background worker completing a job is an
    explicit environment step moving a submitted job to the ready queue
    (matching ready_meshes.put at the end of _generate_chunk).
-/
import Mathlib

namespace WorldAlpha

/-! ### Generic list helpers -/

/-- Remove the first occurrence of `a` from `l` (Python set.discard /
removing one heap entry). -/
def remove_first {α : Type} [DecidableEq α] : List α → α → List α
  | [], _ => []
  | x :: l, a => if x = a then l else x :: remove_first l a

/-- Association-list lookup, first match wins (Python dict access). -/
def alist_lookup {β : Type} : List ((ℤ × ℤ) × β) → ℤ × ℤ → Option β
  | [], _ => none
  | e :: l, pos => if e.1 = pos then some e.2 else alist_lookup l pos

theorem alist_lookup_append {β : Type} (l l' : List ((ℤ × ℤ) × β)) (pos : ℤ × ℤ) :
    alist_lookup (l ++ l') pos =
      (alist_lookup l pos).orElse (fun _ => alist_lookup l' pos) := by
  induction l with
  | nil => simp [alist_lookup]
  | cons e t ih =>
      by_cases h : e.1 = pos <;> simp [alist_lookup, h, ih]

theorem alist_lookup_append_of_some {β : Type} {l : List ((ℤ × ℤ) × β)}
    (l' : List ((ℤ × ℤ) × β)) {pos : ℤ × ℤ} {b : β}
    (h : alist_lookup l pos = some b) :
    alist_lookup (l ++ l') pos = some b := by
  rw [alist_lookup_append, h]; rfl

theorem remove_first_subset {α : Type} [DecidableEq α] {l : List α} {a x : α}
    (h : x ∈ remove_first l a) : x ∈ l := by
  induction l with
  | nil => simp [remove_first] at h
  | cons y t ih =>
      by_cases hy : y = a
      · simp [remove_first, hy] at h
        exact List.mem_cons_of_mem _ h
      · simp [remove_first, hy] at h
        rcases h with h | h
        · exact h ▸ List.mem_cons_self _ _
        · exact List.mem_cons_of_mem _ (ih h)

theorem mem_remove_first_of_ne {α : Type} [DecidableEq α] {l : List α} {a x : α}
    (hne : x ≠ a) (h : x ∈ l) : x ∈ remove_first l a := by
  induction l with
  | nil => simp at h
  | cons y t ih =>
      by_cases hy : y = a
      · simp [remove_first, hy]
        rcases List.mem_cons.mp h with h' | h'
        · exact absurd (h' ▸ hy) hne
        · exact h'
      · simp [remove_first, hy]
        rcases List.mem_cons.mp h with h' | h'
        · exact Or.inl h'
        · exact Or.inr (ih h')

theorem not_mem_remove_first {α : Type} [DecidableEq α] {l : List α} {a : α}
    (hnd : l.Nodup) : a ∉ remove_first l a := by
  induction l with
  | nil => simp [remove_first]
  | cons y t ih =>
      rcases List.nodup_cons.mp hnd with ⟨hy, ht⟩
      by_cases h : y = a
      · subst h
        simp [remove_first, hy]
      · intro hmem
        simp [remove_first, h] at hmem
        rcases hmem with hmem | hmem
        · exact h hmem.symm
        · exact ih ht hmem

theorem remove_first_sublist {α : Type} [DecidableEq α] (l : List α) (a : α) :
    (remove_first l a).Sublist l := by
  induction l with
  | nil => simp [remove_first]
  | cons y t ih =>
      by_cases h : y = a
      · simp [remove_first, h]
      · simpa [remove_first, h] using List.Sublist.cons₂ y ih

theorem remove_first_nodup {α : Type} [DecidableEq α] {l : List α} (a : α)
    (hnd : l.Nodup) : (remove_first l a).Nodup :=
  (remove_first_sublist l a).nodup hnd

theorem remove_first_length_le {α : Type} [DecidableEq α] (l : List α) (a : α) :
    (remove_first l a).length ≤ l.length :=
  (remove_first_sublist l a).length_le

theorem getD_eq_get {α : Type} : ∀ (l : List α) (i : ℕ) (d : α) (h : i < l.length),
    l.getD i d = l.get ⟨i, h⟩
  | _ :: _, 0, _, _ => rfl
  | _ :: t, i + 1, d, h => getD_eq_get t i d (Nat.lt_of_succ_lt_succ h)

/-- Reading index `i < n` out of the list built by mapping `f` over
`List.range n` gives `f i`; this is how per-row loops that append one
entry per index are evaluated below. -/
theorem getD_map_range {α : Type} (f : ℕ → α) (d : α) {n i : ℕ} (h : i < n) :
    ((List.range n).map f).getD i d = f i := by
  have hlen : i < ((List.range n).map f).length := by simpa using h
  rw [getD_eq_get _ _ _ hlen]
  simp

/-! ### Biome field (src/terrain/biomes.py) -/

/-- The four biome types of `BiomeType`. -/
inductive BiomeType : Type
  | MEADOWS
  | BLACK_FOREST
  | MOUNTAINS
  | PLAINS
deriving DecidableEq

/-- `BiomeParams` dataclass.  `snow_height : Option ℚ` with `none`
modelling the default `float('inf')`; the dataclass defaults are the
structure-field defaults. -/
structure BiomeParams where
  base_height : ℚ
  height_variation : ℚ
  roughness : ℚ
  color : ℚ × ℚ × ℚ × ℚ
  tree_density : ℚ := 0
  rock_density : ℚ := 0
  grass_density : ℚ := 0
  snow_height : Option ℚ := none
  vegetation_types : List String := []
  temperature_range : ℚ × ℚ := (0, 1)
  rainfall_range : ℚ × ℚ := (0, 1)
deriving DecidableEq

/-- The fixed biome parameter table from `BiomeManager._setup_biome_params`
(`color.rgb` components written as exact rationals). -/
def biome_params : BiomeType → BiomeParams
  | .MEADOWS =>
      { base_height := 64, height_variation := 15, roughness := 3/10,
        color := (2/5, 4/5, 3/10, 1),
        tree_density := 1/5, rock_density := 1/10, grass_density := 4/5,
        vegetation_types := ["oak_tree", "birch_tree", "bush"],
        temperature_range := (3/10, 7/10), rainfall_range := (3/10, 3/5) }
  | .BLACK_FOREST =>
      { base_height := 70, height_variation := 25, roughness := 2/5,
        color := (1/5, 2/5, 1/5, 1),
        tree_density := 3/5, rock_density := 3/10, grass_density := 2/5,
        vegetation_types := ["pine_tree", "fir_tree", "mushroom"],
        temperature_range := (1/5, 1/2), rainfall_range := (3/5, 1) }
  | .MOUNTAINS =>
      { base_height := 120, height_variation := 60, roughness := 3/5,
        color := (7/10, 7/10, 7/10, 1),
        tree_density := 1/10, rock_density := 7/10,
        snow_height := some 140,
        vegetation_types := ["pine_tree", "rock_formation"],
        temperature_range := (0, 3/10), rainfall_range := (0, 1) }
  | .PLAINS =>
      { base_height := 68, height_variation := 10, roughness := 1/5,
        color := (3/5, 4/5, 3/10, 1),
        tree_density := 1/20, rock_density := 1/10, grass_density := 1,
        vegetation_types := ["oak_tree", "grass_tall", "flowers"],
        temperature_range := (1/2, 1), rainfall_range := (1/5, 1/2) }

/-- `transition_width` from `_setup_transition_params`. -/
def transition_width : ℤ := 20

/-- `blend_factor` from `_setup_transition_params`. -/
def blend_factor : ℚ := 1/2

/-- The eight sampling offsets of `get_blended_params`
(`dx` outer loop, `dz` inner loop, skipping `(0, 0)`). -/
def nearby_offsets : List (ℤ × ℤ) :=
  [(-20, -20), (-20, 0), (-20, 20), (0, -20), (0, 20), (20, -20), (20, 0), (20, 20)]

/-- Collect the distinct nearby biomes differing from the primary, in first
occurrence order (Python dict insertion semantics of `nearby_biomes`). -/
def collect_nearby (g : ℤ → ℤ → BiomeType) (x z : ℤ) (primary : BiomeType) :
    List BiomeType :=
  nearby_offsets.foldl
    (fun acc d =>
      let b := g (x + d.1) (z + d.2)
      if b ≠ primary ∧ b ∉ acc then acc ++ [b] else acc) []

/-- The scan grid `range(-transition_width, transition_width + 1, 5)` of
`_get_biome_distance`. -/
def scan_offsets : List ℤ := [-20, -15, -10, -5, 0, 5, 10, 15, 20]

/-- Running minimum starting from `float('inf')` (modelled as `none`). -/
def opt_min (o : Option ℚ) (q : ℚ) : Option ℚ :=
  match o with
  | none => some q
  | some p => some (min p q)

/-- `BiomeManager._get_biome_distance`: minimum over the scan grid of the
float sqrt of the squared offset, restricted to points where the field
equals the target biome.  `ds` abstracts the external float computation
`(dx*dx + dz*dz) ** 0.5` as a pure function of the squared offset. -/
def get_biome_distance (g : ℤ → ℤ → BiomeType) (ds : ℤ → ℚ) (x z : ℤ)
    (target : BiomeType) : Option ℚ :=
  scan_offsets.foldl
    (fun acc dx =>
      scan_offsets.foldl
        (fun acc dz =>
          if g (x + dx) (z + dz) = target then opt_min acc (ds (dx * dx + dz * dz))
          else acc) acc) none

/-- `BiomeManager._lerp`. -/
def lerp_q (a b t : ℚ) : ℚ := a + (b - a) * t

/-- `BiomeManager._blend_colors` (alpha pinned to 1). -/
def blend_colors (c1 c2 : ℚ × ℚ × ℚ × ℚ) (f : ℚ) : ℚ × ℚ × ℚ × ℚ :=
  (lerp_q c1.1 c2.1 f, lerp_q c1.2.1 c2.2.1 f, lerp_q c1.2.2.1 c2.2.2.1 f, 1)

/-- `max(0, 1 - distance / transition_width) * blend_factor`; a missing
distance is `float('inf')`, for which the expression evaluates to 0. -/
def blend_of_distance : Option ℚ → ℚ
  | none => 0
  | some d => max 0 (1 - d / 20) * blend_factor

/-- One iteration of the blending loop in `get_blended_params`. -/
def blend_step (g : ℤ → ℤ → BiomeType) (ds : ℤ → ℚ) (x z : ℤ)
    (bp : BiomeParams) (b : BiomeType) : BiomeParams :=
  let blend := blend_of_distance (get_biome_distance g ds x z b)
  let np := biome_params b
  { bp with
    base_height := lerp_q bp.base_height np.base_height blend,
    height_variation := lerp_q bp.height_variation np.height_variation blend,
    roughness := lerp_q bp.roughness np.roughness blend,
    color := blend_colors bp.color np.color blend }

/-- `BiomeManager.get_blended_params`, parameterized by the biome field
`g` (the pure function `get_biome_at`, a deterministic function of
coordinates and seed through external snoise2 noise) and the float sqrt
`ds`. -/
def get_blended_params (g : ℤ → ℤ → BiomeType) (ds : ℤ → ℚ) (x z : ℤ) :
    BiomeParams :=
  let primary := g x z
  let primary_params := biome_params primary
  let nearby := collect_nearby g x z primary
  if nearby = [] then primary_params
  else
    nearby.foldl (blend_step g ds x z)
      { base_height := primary_params.base_height,
        height_variation := primary_params.height_variation,
        roughness := primary_params.roughness,
        color := primary_params.color }

theorem blend_fold_defaults (g : ℤ → ℤ → BiomeType) (ds : ℤ → ℚ) (x z : ℤ)
    (l : List BiomeType) (bp : BiomeParams) :
    (l.foldl (blend_step g ds x z) bp).tree_density = bp.tree_density ∧
    (l.foldl (blend_step g ds x z) bp).rock_density = bp.rock_density ∧
    (l.foldl (blend_step g ds x z) bp).grass_density = bp.grass_density ∧
    (l.foldl (blend_step g ds x z) bp).snow_height = bp.snow_height := by
  induction l generalizing bp with
  | nil => exact ⟨rfl, rfl, rfl, rfl⟩
  | cons b t ih => simpa [blend_step] using ih _

/-- C10: whenever some sampled neighbor's biome differs from the primary,
the blended result carries the dataclass defaults (densities 0, snow
height infinity) in the unblended fields; when none differs, the
primary's full parameter set is returned unmodified. -/
theorem get_blended_params_default_fields (g : ℤ → ℤ → BiomeType) (ds : ℤ → ℚ)
    (x z : ℤ) :
    (collect_nearby g x z (g x z) ≠ [] →
      (get_blended_params g ds x z).tree_density = 0 ∧
      (get_blended_params g ds x z).rock_density = 0 ∧
      (get_blended_params g ds x z).grass_density = 0 ∧
      (get_blended_params g ds x z).snow_height = none) ∧
    (collect_nearby g x z (g x z) = [] →
      get_blended_params g ds x z = biome_params (g x z)) := by
  constructor
  · intro hne
    have h := blend_fold_defaults g ds x z (collect_nearby g x z (g x z))
      { base_height := (biome_params (g x z)).base_height,
        height_variation := (biome_params (g x z)).height_variation,
        roughness := (biome_params (g x z)).roughness,
        color := (biome_params (g x z)).color }
    simp only [get_blended_params, if_neg hne]
    exact h
  · intro he
    simp [get_blended_params, he]

/-- Concrete biome field used in witnesses: mountains on negative x. -/
def gW : ℤ → ℤ → BiomeType := fun p _ => if p < 0 then .MOUNTAINS else .MEADOWS

/-- Constant biome field used in witnesses. -/
def gC : ℤ → ℤ → BiomeType := fun _ _ => .MEADOWS

/-- Trivial abstract sqrt used in witnesses. -/
def dsW : ℤ → ℚ := fun _ => 0

/-- Witness for C10: at (0,0) with a field that is MOUNTAINS for x < 0,
some sampled neighbor differs, so the defaults are returned in the
unblended fields; for the constant field no neighbor differs and the
primary parameters come back whole. -/
theorem get_blended_params_default_fields_witness :
    ((get_blended_params gW dsW 0 0).tree_density = 0 ∧
      (get_blended_params gW dsW 0 0).rock_density = 0 ∧
      (get_blended_params gW dsW 0 0).grass_density = 0 ∧
      (get_blended_params gW dsW 0 0).snow_height = none) ∧
    get_blended_params gC dsW 0 0 = biome_params BiomeType.MEADOWS :=
  ⟨(get_blended_params_default_fields gW dsW 0 0).1 (by decide),
   (get_blended_params_default_fields gC dsW 0 0).2 (by decide)⟩

/-! ### Heightmap generation

`ChunkManager._generate_heightmap` (the simple path) and
`TerrainChunk._fast_generate_heightmap` (the coarse-lattice path).
`noise4` abstracts the external pure value of
`snoise2(world_x * 0.02, world_z * 0.02, octaves=4)` and `noise2` that of
`snoise2(world_x * 0.1, world_z * 0.1, octaves=2)`, both as functions of
the integer world coordinates. -/

/-- Elevation of the simple path at absolute world coordinates:
`noise * height_variation + base_height` with blended biome parameters,
exactly the body of the inner loop of `_generate_heightmap`. -/
def height_at (g : ℤ → ℤ → BiomeType) (ds : ℤ → ℚ) (noise4 : ℤ → ℤ → ℚ)
    (wx wz : ℤ) : ℚ :=
  noise4 wx wz * (get_blended_params g ds wx wz).height_variation +
    (get_blended_params g ds wx wz).base_height

/-- `ChunkManager._generate_heightmap` for chunk `(cx, cz)` with
`chunk_size = N`: a `(N+1) × (N+1)` grid of `height_at` evaluated at
`world_start + local index`. -/
def generate_heightmap (g : ℤ → ℤ → BiomeType) (ds : ℤ → ℚ)
    (noise4 : ℤ → ℤ → ℚ) (N : ℕ) (cx cz : ℤ) : List (List ℚ) :=
  (List.range (N + 1)).map (fun (z : ℕ) =>
    (List.range (N + 1)).map (fun (x : ℕ) =>
      height_at g ds noise4 (cx * (N : ℤ) + (x : ℤ)) (cz * (N : ℤ) + (z : ℤ))))

/-- Grid access `heightmap[z][x]`. -/
def hm_entry (hm : List (List ℚ)) (z x : ℕ) : ℚ := (hm.getD z []).getD x 0

theorem generate_heightmap_entry (g : ℤ → ℤ → BiomeType) (ds : ℤ → ℚ)
    (noise4 : ℤ → ℤ → ℚ) (N : ℕ) (cx cz : ℤ) {z x : ℕ}
    (hz : z < N + 1) (hx : x < N + 1) :
    hm_entry (generate_heightmap g ds noise4 N cx cz) z x =
      height_at g ds noise4 (cx * (N : ℤ) + (x : ℤ)) (cz * (N : ℤ) + (z : ℤ)) := by
  unfold hm_entry generate_heightmap
  rw [getD_map_range _ _ hz, getD_map_range _ _ hx]

/-- C3 (amended to the simple path): the heightmaps of chunks adjacent in
x (resp. z) agree on the shared overlap column (resp. row), for every
chunk size, every biome field and every noise function: each entry is the
same pure function of absolute world coordinates in both chunks. -/
theorem generate_heightmap_seam (g : ℤ → ℤ → BiomeType) (ds : ℤ → ℚ)
    (noise4 : ℤ → ℤ → ℚ) (N : ℕ) (cx cz : ℤ) :
    (∀ z : ℕ, z ≤ N →
      hm_entry (generate_heightmap g ds noise4 N cx cz) z N =
        hm_entry (generate_heightmap g ds noise4 N (cx + 1) cz) z 0) ∧
    (∀ x : ℕ, x ≤ N →
      hm_entry (generate_heightmap g ds noise4 N cx cz) N x =
        hm_entry (generate_heightmap g ds noise4 N cx (cz + 1)) 0 x) := by
  constructor
  · intro z hz
    rw [generate_heightmap_entry g ds noise4 N cx cz
          (Nat.lt_succ_of_le hz) (Nat.lt_succ_self N),
        generate_heightmap_entry g ds noise4 N (cx + 1) cz
          (Nat.lt_succ_of_le hz) (Nat.succ_pos N)]
    have : cx * (N : ℤ) + (N : ℤ) = (cx + 1) * (N : ℤ) + (0 : ℕ) := by
      push_cast; ring
    rw [this]
  · intro x hx
    rw [generate_heightmap_entry g ds noise4 N cx cz
          (Nat.lt_succ_self N) (Nat.lt_succ_of_le hx),
        generate_heightmap_entry g ds noise4 N cx (cz + 1)
          (Nat.succ_pos N) (Nat.lt_succ_of_le hx)]
    have : cz * (N : ℤ) + (N : ℤ) = (cz + 1) * (N : ℤ) + (0 : ℕ) := by
      push_cast; ring
    rw [this]

/-- Concrete abstract noise used in witnesses: the world x coordinate. -/
def n4W : ℤ → ℤ → ℚ := fun wx _ => (wx : ℚ)

/-- Concrete abstract detail noise used in witnesses. -/
def n2W : ℤ → ℤ → ℚ := fun _ _ => 0

/-- Witness for C3: chunks (0,0) and (1,0) of size 2 agree at the shared
world column, row 1. -/
theorem generate_heightmap_seam_witness :
    hm_entry (generate_heightmap gC dsW n4W 2 0 0) 1 2 =
      hm_entry (generate_heightmap gC dsW n4W 2 1 0) 1 0 :=
  (generate_heightmap_seam gC dsW n4W 2 0 0).1 1 (by decide)

/-! #### Fast path (`TerrainChunk._fast_generate_heightmap`) -/

/-- `base_resolution = 4`: the coarse sampling stride. -/
def base_resolution : ℕ := 4

/-- `base_samples = chunk_size_with_overflow // base_resolution + 1`. -/
def base_samples (N : ℕ) : ℕ := (N + 1) / base_resolution + 1

/-- The coarse sample of the fast path at absolute world coordinates:
`base * height_variation + detail * roughness + base_height`. -/
def sample_fast (g : ℤ → ℤ → BiomeType) (ds : ℤ → ℚ)
    (noise4 noise2 : ℤ → ℤ → ℚ) (wx wz : ℤ) : ℚ :=
  noise4 wx wz * (get_blended_params g ds wx wz).height_variation +
    noise2 wx wz * (get_blended_params g ds wx wz).roughness +
    (get_blended_params g ds wx wz).base_height

/-- The low-resolution `base_heightmap` grid of the fast path. -/
def base_heightmap (g : ℤ → ℤ → BiomeType) (ds : ℤ → ℚ)
    (noise4 noise2 : ℤ → ℤ → ℚ) (N : ℕ) (cx cz : ℤ) : List (List ℚ) :=
  (List.range (base_samples N)).map (fun (z : ℕ) =>
    (List.range (base_samples N)).map (fun (x : ℕ) =>
      sample_fast g ds noise4 noise2
        (cx * (N : ℤ) + (x : ℤ) * (base_resolution : ℤ))
        (cz * (N : ℤ) + (z : ℤ) * (base_resolution : ℤ))))

/-- `TerrainChunk._fast_generate_heightmap`: bilinear interpolation of the
coarse grid to full resolution (ursina `lerp(a, b, t) = a + (b - a) * t`). -/
def fast_generate_heightmap (g : ℤ → ℤ → BiomeType) (ds : ℤ → ℚ)
    (noise4 noise2 : ℤ → ℤ → ℚ) (N : ℕ) (cx cz : ℤ) : List (List ℚ) :=
  let base := base_heightmap g ds noise4 noise2 N cx cz
  (List.range (N + 1)).map (fun (z : ℕ) =>
    (List.range (N + 1)).map (fun (x : ℕ) =>
      let base_x := x / base_resolution
      let base_z := z / base_resolution
      let next_x := min (base_x + 1) (base_samples N - 1)
      let next_z := min (base_z + 1) (base_samples N - 1)
      let fx : ℚ := ((x % base_resolution : ℕ) : ℚ) / (base_resolution : ℚ)
      let fz : ℚ := ((z % base_resolution : ℕ) : ℚ) / (base_resolution : ℚ)
      let h00 := hm_entry base base_z base_x
      let h10 := hm_entry base base_z next_x
      let h01 := hm_entry base next_z base_x
      let h11 := hm_entry base next_z next_x
      lerp_q (lerp_q h00 h10 fx) (lerp_q h01 h11 fx) fz))

/-- C9: on the coarse lattice (both indices multiples of the stride 4) the
interpolated full-resolution entry equals the coarse grid entry exactly:
both interpolation factors vanish and `lerp` returns its first argument
unchanged. -/
theorem fast_heightmap_lattice_exact (g : ℤ → ℤ → BiomeType) (ds : ℤ → ℚ)
    (noise4 noise2 : ℤ → ℤ → ℚ) (N : ℕ) (cx cz : ℤ) {z x : ℕ}
    (hz : z < N + 1) (hx : x < N + 1)
    (hz4 : z % base_resolution = 0) (hx4 : x % base_resolution = 0) :
    hm_entry (fast_generate_heightmap g ds noise4 noise2 N cx cz) z x =
      hm_entry (base_heightmap g ds noise4 noise2 N cx cz)
        (z / base_resolution) (x / base_resolution) := by
  unfold fast_generate_heightmap hm_entry
  rw [getD_map_range _ _ hz, getD_map_range _ _ hx]
  simp only [hz4, hx4, Nat.cast_zero, zero_div, lerp_q]
  ring

/-- Witness for C9: size 5 chunk at (0,0), lattice point (z,x) = (0,4). -/
theorem fast_heightmap_lattice_exact_witness :
    hm_entry (fast_generate_heightmap gC dsW n4W n2W 5 0 0) 0 4 =
      hm_entry (base_heightmap gC dsW n4W n2W 5 0 0) 0 1 :=
  fast_heightmap_lattice_exact gC dsW n4W n2W 5 0 0
    (by decide) (by decide) (by decide) (by decide)

theorem base_heightmap_entry (g : ℤ → ℤ → BiomeType) (ds : ℤ → ℚ)
    (noise4 noise2 : ℤ → ℤ → ℚ) (N : ℕ) (cx cz : ℤ) (z x : ℕ)
    (hz : z < base_samples N) (hx : x < base_samples N) :
    hm_entry (base_heightmap g ds noise4 noise2 N cx cz) z x =
      sample_fast g ds noise4 noise2
        (cx * (N : ℤ) + (x : ℤ) * (base_resolution : ℤ))
        (cz * (N : ℤ) + (z : ℤ) * (base_resolution : ℤ)) := by
  unfold hm_entry base_heightmap
  rw [getD_map_range _ _ hz, getD_map_range _ _ hx]

theorem fast_generate_heightmap_entry (g : ℤ → ℤ → BiomeType) (ds : ℤ → ℚ)
    (noise4 noise2 : ℤ → ℤ → ℚ) (N : ℕ) (cx cz : ℤ) (z x : ℕ)
    (hz : z < N + 1) (hx : x < N + 1) :
    hm_entry (fast_generate_heightmap g ds noise4 noise2 N cx cz) z x =
      lerp_q
        (lerp_q
          (hm_entry (base_heightmap g ds noise4 noise2 N cx cz)
            (z / base_resolution) (x / base_resolution))
          (hm_entry (base_heightmap g ds noise4 noise2 N cx cz)
            (z / base_resolution) (min (x / base_resolution + 1) (base_samples N - 1)))
          (((x % base_resolution : ℕ) : ℚ) / (base_resolution : ℚ)))
        (lerp_q
          (hm_entry (base_heightmap g ds noise4 noise2 N cx cz)
            (min (z / base_resolution + 1) (base_samples N - 1)) (x / base_resolution))
          (hm_entry (base_heightmap g ds noise4 noise2 N cx cz)
            (min (z / base_resolution + 1) (base_samples N - 1))
            (min (x / base_resolution + 1) (base_samples N - 1)))
          (((x % base_resolution : ℕ) : ℚ) / (base_resolution : ℚ)))
        (((z % base_resolution : ℕ) : ℚ) / (base_resolution : ℚ)) := by
  unfold fast_generate_heightmap
  unfold hm_entry
  rw [getD_map_range _ _ hz, getD_map_range _ _ hx]

/-- With the constant MEADOWS field no sampled neighbor differs, so the
blend returns the meadows parameter set unmodified. -/
theorem get_blended_params_gC (ds : ℤ → ℚ) (x z : ℤ) :
    get_blended_params gC ds x z = biome_params .MEADOWS := by
  simp [get_blended_params, collect_nearby, nearby_offsets, gC]

theorem sample_fast_gC (noise4 noise2 : ℤ → ℤ → ℚ) (wx wz : ℤ) :
    sample_fast gC dsW noise4 noise2 wx wz =
      noise4 wx wz * 15 + noise2 wx wz * (3/10) + 64 := by
  simp [sample_fast, get_blended_params_gC, biome_params]

/-- Counterexample for C3 as stated: with chunk size 2 the fast path is
not seam continuous.  `base_samples 2 = 1`, so each chunk's whole grid is
the single coarse sample at its own chunk origin; chunks (0,0) and (1,0)
then disagree at the shared world column (local x = 2 resp. x = 0, row 0)
because their origins produce different samples. -/
theorem fast_heightmap_seam_counterexample :
    hm_entry (fast_generate_heightmap gC dsW n4W n2W 2 0 0) 0 2 ≠
      hm_entry (fast_generate_heightmap gC dsW n4W n2W 2 1 0) 0 0 := by
  have hbase0 : hm_entry (base_heightmap gC dsW n4W n2W 2 0 0) 0 0 = 64 := by
    rw [base_heightmap_entry gC dsW n4W n2W 2 0 0 0 0 (by norm_num [base_samples])
          (by norm_num [base_samples])]
    rw [sample_fast_gC]
    norm_num [n4W, n2W]
  have hbase1 : hm_entry (base_heightmap gC dsW n4W n2W 2 1 0) 0 0 = 94 := by
    rw [base_heightmap_entry gC dsW n4W n2W 2 1 0 0 0 (by norm_num [base_samples])
          (by norm_num [base_samples])]
    rw [sample_fast_gC]
    norm_num [n4W, n2W]
  have hA : hm_entry (fast_generate_heightmap gC dsW n4W n2W 2 0 0) 0 2 = 64 := by
    rw [fast_generate_heightmap_entry gC dsW n4W n2W 2 0 0 0 2 (by norm_num) (by norm_num)]
    norm_num [base_resolution, base_samples]
    rw [hbase0]
    norm_num [lerp_q]
  have hB : hm_entry (fast_generate_heightmap gC dsW n4W n2W 2 1 0) 0 0 = 94 := by
    rw [fast_generate_heightmap_entry gC dsW n4W n2W 2 1 0 0 0 (by norm_num) (by norm_num)]
    norm_num [base_resolution, base_samples]
    rw [hbase1]
    norm_num [lerp_q]
  rw [hA, hB]
  norm_num

/-! ### Mesh builder

`ChunkManager._generate_chunk` (lines 117-138) and
`TerrainChunk._generate_chunk_mesh` emit, in one pass over the
`(N+1) × (N+1)` vertex grid, one vertex and one color per grid point and,
for every cell with `x < N` and `z < N`, the six triangle indices
`[base, base+1, base+R, base+1, base+R+1, base+R]` with
`base = z*R + x`, `R = N+1` (the numpy `triangle_pattern + base_idx` of
chunk.py produces the same six values).  The three output lists are
modelled separately. -/

/-- Vertex list: `Vec3(x, height, z)` per grid point, row-major. -/
def mesh_vertices (hm : List (List ℚ)) (N : ℕ) : List (ℚ × ℚ × ℚ) :=
  (List.range (N + 1)).flatMap (fun (z : ℕ) =>
    (List.range (N + 1)).map (fun (x : ℕ) => ((x : ℚ), hm_entry hm z x, (z : ℚ))))

/-- Triangle index list (six entries per interior cell). -/
def mesh_triangles (N : ℕ) : List ℕ :=
  (List.range (N + 1)).flatMap (fun (z : ℕ) =>
    (List.range (N + 1)).flatMap (fun (x : ℕ) =>
      if x < N ∧ z < N then
        [z * (N + 1) + x, z * (N + 1) + x + 1, z * (N + 1) + x + (N + 1),
         z * (N + 1) + x + 1, z * (N + 1) + x + (N + 1) + 1,
         z * (N + 1) + x + (N + 1)]
      else []))

/-- Per-vertex color list from the blended biome parameters at the
absolute world coordinates. -/
def mesh_colors (g : ℤ → ℤ → BiomeType) (ds : ℤ → ℚ) (N : ℕ) (cx cz : ℤ) :
    List (ℚ × ℚ × ℚ × ℚ) :=
  (List.range (N + 1)).flatMap (fun (z : ℕ) =>
    (List.range (N + 1)).map (fun (x : ℕ) =>
      (get_blended_params g ds (cx * (N : ℤ) + (x : ℤ)) (cz * (N : ℤ) + (z : ℤ))).color))

theorem length_flatMap_const {α β : Type} (l : List α) (f : α → List β) (k : ℕ)
    (h : ∀ a ∈ l, (f a).length = k) : (l.flatMap f).length = l.length * k := by
  induction l with
  | nil => simp
  | cons a t ih =>
      have ha := h a (List.mem_cons_self a t)
      have ht : ∀ b ∈ t, (f b).length = k := fun b hb => h b (List.mem_cons_of_mem a hb)
      simp only [List.flatMap_cons, List.length_append, List.length_cons, ih ht, ha]
      ring

theorem sum_ite_range (n c : ℕ) :
    ((List.range (n + 1)).map (fun z => if z < n then c else 0)).sum = n * c := by
  rw [List.range_succ, List.map_append, List.sum_append]
  have h1 : (List.range n).map (fun z => if z < n then c else 0) =
      (List.range n).map (fun _ => c) :=
    List.map_congr_left (fun z hz => if_pos (List.mem_range.mp hz))
  rw [h1]
  simp [Nat.lt_irrefl, List.map_const', mul_comm]

theorem mesh_triangles_row_length (N z : ℕ) :
    ((List.range (N + 1)).flatMap (fun (x : ℕ) =>
      if x < N ∧ z < N then
        [z * (N + 1) + x, z * (N + 1) + x + 1, z * (N + 1) + x + (N + 1),
         z * (N + 1) + x + 1, z * (N + 1) + x + (N + 1) + 1,
         z * (N + 1) + x + (N + 1)]
      else [])).length = if z < N then 6 * N else 0 := by
  rw [List.length_flatMap]
  simp only [Function.comp_def]
  by_cases hz : z < N
  · rw [if_pos hz]
    have h1 : (List.range (N + 1)).map
        (fun x => (if x < N ∧ z < N then
          [z * (N + 1) + x, z * (N + 1) + x + 1, z * (N + 1) + x + (N + 1),
           z * (N + 1) + x + 1, z * (N + 1) + x + (N + 1) + 1,
           z * (N + 1) + x + (N + 1)]
        else []).length) = (List.range (N + 1)).map (fun x => if x < N then 6 else 0) :=
      List.map_congr_left (fun x _ => by
        by_cases hxN : x < N
        · simp [hxN, hz]
        · simp [hxN])
    rw [h1, sum_ite_range N 6]
    omega
  · rw [if_neg hz]
    have h1 : (List.range (N + 1)).map
        (fun x => (if x < N ∧ z < N then
          [z * (N + 1) + x, z * (N + 1) + x + 1, z * (N + 1) + x + (N + 1),
           z * (N + 1) + x + 1, z * (N + 1) + x + (N + 1) + 1,
           z * (N + 1) + x + (N + 1)]
        else []).length) = (List.range (N + 1)).map (fun _ => 0) :=
      List.map_congr_left (fun x _ => by simp [hz])
    rw [h1]
    simp

theorem mesh_vertices_length (hm : List (List ℚ)) (N : ℕ) :
    (mesh_vertices hm N).length = (N + 1) ^ 2 := by
  unfold mesh_vertices
  rw [length_flatMap_const _ _ (N + 1) (fun z _ => by simp)]
  simp only [List.length_range]
  ring

theorem mesh_triangles_length (N : ℕ) :
    (mesh_triangles N).length = 6 * N ^ 2 := by
  unfold mesh_triangles
  rw [List.length_flatMap]
  simp only [Function.comp_def]
  have h1 : (List.range (N + 1)).map
      (fun z => ((List.range (N + 1)).flatMap (fun (x : ℕ) =>
        if x < N ∧ z < N then
          [z * (N + 1) + x, z * (N + 1) + x + 1, z * (N + 1) + x + (N + 1),
           z * (N + 1) + x + 1, z * (N + 1) + x + (N + 1) + 1,
           z * (N + 1) + x + (N + 1)]
        else [])).length) =
      (List.range (N + 1)).map (fun z => if z < N then 6 * N else 0) :=
    List.map_congr_left (fun z _ => mesh_triangles_row_length N z)
  rw [h1, sum_ite_range N (6 * N)]
  ring

theorem mesh_triangles_bound (N : ℕ) : ∀ i ∈ mesh_triangles N, i < (N + 1) ^ 2 := by
  intro i hi
  unfold mesh_triangles at hi
  rw [List.mem_flatMap] at hi
  obtain ⟨z, hzmem, hi⟩ := hi
  rw [List.mem_flatMap] at hi
  obtain ⟨x, hxmem, hi⟩ := hi
  by_cases hc : x < N ∧ z < N
  · rw [if_pos hc] at hi
    obtain ⟨hxN, hzN⟩ := hc
    have key : z * (N + 1) + (N + 1) ≤ N * (N + 1) := by
      calc z * (N + 1) + (N + 1) = (z + 1) * (N + 1) := by ring
        _ ≤ N * (N + 1) := Nat.mul_le_mul_right _ hzN
    have hexp : (N + 1) ^ 2 = N * (N + 1) + (N + 1) := by ring
    rw [hexp]
    set A := z * (N + 1) with hA
    set B := N * (N + 1) with hB
    simp only [List.mem_cons, List.not_mem_nil, or_false] at hi
    rcases hi with rfl | rfl | rfl | rfl | rfl | rfl <;> omega
  · rw [if_neg hc] at hi
    exact absurd hi (List.not_mem_nil i)

/-- C4: for every chunk size N at least 1 and any heightmap, the mesh has
exactly (N+1)^2 vertices and 6 N^2 triangle index entries (2 N^2
triangles in triples), and each index is within the vertex-array
bounds. -/
theorem mesh_size_invariants (N : ℕ) (_hN : 1 ≤ N) (hm : List (List ℚ)) :
    (mesh_vertices hm N).length = (N + 1) ^ 2 ∧
    (mesh_triangles N).length = 6 * N ^ 2 ∧
    ∀ i ∈ mesh_triangles N, i < (N + 1) ^ 2 :=
  ⟨mesh_vertices_length hm N, mesh_triangles_length N, mesh_triangles_bound N⟩

/-- Witness for C4: chunk size 2. -/
theorem mesh_size_invariants_witness :
    (mesh_vertices [] 2).length = (2 + 1) ^ 2 ∧
    (mesh_triangles 2).length = 6 * 2 ^ 2 ∧
    ∀ i ∈ mesh_triangles 2, i < (2 + 1) ^ 2 :=
  mesh_size_invariants 2 (by norm_num) []

/-! ### Chunk scheduler (src/terrain/chunk_manager.py, ChunkManager)

The mutable instance state is a record; the methods `request_chunk`,
`process_queued_chunks` (drain phase then dispatch phase) and
`remove_distant_chunks` are pure state transformers.  A background worker
finishing `_generate_chunk` is the environment step `worker_complete`,
which moves a submitted job from the pool to `ready_meshes` (the
`ready_meshes.put` at the end of `_generate_chunk`; generation of the
mesh data itself is pure, so only the position and priority are carried).
`submitted` is a ghost append-only log of every `thread_pool.submit`
call, used to state "how many jobs were ever submitted"; `next_id`
numbers the Entity handles created at install time.  Python's
`PriorityQueue` pops the least `(priority, chunk_pos)` tuple in
lexicographic order, which is a total order here, so the queue content is
modelled as a list with a pop-least operation. -/

/-- Chunk grid position. -/
abbrev Pos : Type := ℤ × ℤ

/-- A queue entry `(priority, chunk_pos)`. -/
abbrev Job : Type := ℚ × Pos

/-- Computable integer absolute value (Python `abs` on ints). -/
def iabs (a : ℤ) : ℤ := if a < 0 then -a else a

theorem iabs_eq_abs (a : ℤ) : iabs a = |a| := by
  unfold iabs
  by_cases h : a < 0
  · rw [if_pos h, abs_of_neg h]
  · rw [if_neg h, abs_of_nonneg (le_of_not_lt h)]

/-- Lexicographic order on `(priority, (x, z))` tuples: exactly Python's
tuple comparison used by the `PriorityQueue` heap. -/
def job_le (a b : Job) : Prop :=
  a.1 < b.1 ∨ (a.1 = b.1 ∧ (a.2.1 < b.2.1 ∨ (a.2.1 = b.2.1 ∧ a.2.2 ≤ b.2.2)))

instance job_le_decidable (a b : Job) : Decidable (job_le a b) := by
  unfold job_le
  infer_instance

/-- The least element of a job list under `job_le` (`PriorityQueue` head). -/
def find_min : List Job → Option Job
  | [] => none
  | j :: l =>
    match find_min l with
    | none => some j
    | some m => if job_le j m then some j else some m

/-- Pop the least element (`PriorityQueue.get_nowait`). -/
def pop_min (l : List Job) : Option (Job × List Job) :=
  match find_min l with
  | none => none
  | some m => some (m, remove_first l m)

theorem find_min_mem : ∀ {l : List Job} {m : Job}, find_min l = some m → m ∈ l := by
  intro l
  induction l with
  | nil => intro m h; simp [find_min] at h
  | cons j t ih =>
      intro m h
      cases hm : find_min t with
      | none =>
          simp [find_min, hm] at h
          subst h
          exact List.mem_cons_self _ _
      | some m' =>
          by_cases hle : job_le j m'
          · simp [find_min, hm, hle] at h
            subst h
            exact List.mem_cons_self _ _
          · simp [find_min, hm, hle] at h
            subst h
            exact List.mem_cons_of_mem _ (ih hm)

/-- The ChunkManager instance state. -/
structure ChunkManagerState where
  chunks : List (Pos × ℕ)
  generation_queue : List Job
  ready_meshes : List Job
  currently_generating : List Pos
  inflight : List Job
  submitted : List Job
  next_id : ℕ
deriving DecidableEq

/-- `max_mesh_per_frame = 2` from `__init__`. -/
def max_mesh_per_frame : ℕ := 2

/-- `max_concurrent_gen = 4` from `__init__`. -/
def max_concurrent_gen : ℕ := 4

/-- Freshly constructed manager: all structures empty. -/
def init_state : ChunkManagerState :=
  { chunks := [], generation_queue := [], ready_meshes := [],
    currently_generating := [], inflight := [], submitted := [], next_id := 0 }

/-- `ChunkManager.request_chunk`: enqueue unless the position is loaded or
currently generating (the queue itself is not checked). -/
def request_chunk (s : ChunkManagerState) (chunk_pos : Pos) (priority : ℚ) :
    ChunkManagerState :=
  if alist_lookup s.chunks chunk_pos = none ∧ chunk_pos ∉ s.currently_generating then
    { s with generation_queue := (priority, chunk_pos) :: s.generation_queue }
  else s

/-- The drain phase of `process_queued_chunks`: up to the given budget of
completed results are popped; a result whose position is not yet loaded
is installed (Entity handle `next_id`); the in-flight marker is always
discarded. -/
def drain (s : ChunkManagerState) : ℕ → ChunkManagerState
  | 0 => s
  | k + 1 =>
    match pop_min s.ready_meshes with
    | none => s
    | some ((_, chunk_pos), rest) =>
      let s1 := { s with ready_meshes := rest }
      let s2 :=
        if alist_lookup s1.chunks chunk_pos = none then
          { s1 with chunks := s1.chunks ++ [(chunk_pos, s1.next_id)],
                    next_id := s1.next_id + 1 }
        else s1
      drain { s2 with
                currently_generating := remove_first s2.currently_generating chunk_pos } k

/-- The dispatch loop of `process_queued_chunks`, with fuel: each
iteration pops one queue entry, so the queue length is sufficient fuel to
simulate the unbounded `while` loop. -/
def dispatch_go : ℕ → ChunkManagerState → ChunkManagerState
  | 0, s => s
  | fuel + 1, s =>
    if s.currently_generating.length < max_concurrent_gen then
      match pop_min s.generation_queue with
      | none => s
      | some ((priority, chunk_pos), rest) =>
        let s1 := { s with generation_queue := rest }
        if alist_lookup s1.chunks chunk_pos = none ∧
            chunk_pos ∉ s1.currently_generating then
          dispatch_go fuel
            { s1 with
                currently_generating := chunk_pos :: s1.currently_generating,
                inflight := (priority, chunk_pos) :: s1.inflight,
                submitted := s1.submitted ++ [(priority, chunk_pos)] }
        else dispatch_go fuel s1
    else s

/-- The dispatch phase: run the loop with the queue length as fuel. -/
def dispatch (s : ChunkManagerState) : ChunkManagerState :=
  dispatch_go s.generation_queue.length s

/-- `ChunkManager.process_queued_chunks`: drain completed meshes, then
start new generations. -/
def process_queued_chunks (s : ChunkManagerState) : ChunkManagerState :=
  dispatch (drain s max_mesh_per_frame)

/-- `ChunkManager.remove_distant_chunks` with the hard-coded `border = 2`:
drop every loaded chunk with `abs(chunk_x - center_x) > view_distance + 2`
or likewise in z (iterating over a snapshot of the keys and deleting each
offender via `remove_chunk` is, on a dict, exactly this filter). -/
def remove_distant_chunks (s : ChunkManagerState)
    (center_x center_z view_distance : ℤ) : ChunkManagerState :=
  let border : ℤ := 2
  let max_distance := view_distance + border
  { s with chunks := s.chunks.filter (fun e =>
      decide (¬(iabs (e.1.1 - center_x) > max_distance ∨
                iabs (e.1.2 - center_z) > max_distance))) }

/-- Environment step: a worker finishes `_generate_chunk` for a submitted
job and posts its mesh to `ready_meshes`. -/
def worker_complete (s : ChunkManagerState) (j : Job) : ChunkManagerState :=
  if j ∈ s.inflight then
    { s with inflight := remove_first s.inflight j,
             ready_meshes := j :: s.ready_meshes }
  else s

/-- The scheduler alphabet: the three public operations plus worker
completion. -/
inductive Op : Type
  | request (chunk_pos : Pos) (priority : ℚ)
  | process
  | evict (center_x center_z view_distance : ℤ)
  | complete (j : Job)

/-- Apply one operation. -/
def apply_op (s : ChunkManagerState) : Op → ChunkManagerState
  | .request pos priority => request_chunk s pos priority
  | .process => process_queued_chunks s
  | .evict cx cz v => remove_distant_chunks s cx cz v
  | .complete j => worker_complete s j

/-- Execute a call sequence from a fresh manager.  Reachable states are
exactly the `run` of some operation list. -/
def run (ops : List Op) : ChunkManagerState := ops.foldl apply_op init_state

/-- Trace for the C1 counterexample: four better-priority requests fill
the concurrency cap, position (9,9) is requested twice, the first
process dispatches the fillers, one completes, and the second process
dispatches (9,9) while its duplicate entry is still queued. -/
def ops_c1 : List Op :=
  [.request (0, 0) 1, .request (0, 1) 2, .request (0, 2) 3, .request (0, 3) 4,
   .request (9, 9) 5, .request (9, 9) 6, .process, .complete (1, (0, 0)), .process]

/-- Counterexample for C1 as stated: after `ops_c1` the position (9,9) is
simultaneously Generating (in `currently_generating`) and Queued (an
entry for it remains in `generation_queue`), because `request_chunk`
never checks the queue for duplicates. -/
theorem state_exclusivity_counterexample :
    ((9, 9) : Pos) ∈ (run ops_c1).currently_generating ∧
    ∃ j ∈ (run ops_c1).generation_queue, j.2 = ((9, 9) : Pos) := by
  decide

/-- Trace for the C2 counterexample: the same position requested twice
before it resolves. -/
def ops_c2 : List Op := [.request (1, 1) 1, .request (1, 1) 2]

/-- Counterexample for C2 as stated: requesting (1,1) twice before it
resolves enqueues it twice, not once — `request_chunk` only checks
`chunks` and `currently_generating`, never the queue. -/
theorem request_twice_enqueued_twice_counterexample :
    (run ops_c2).generation_queue.countP
      (fun j => decide (j.2 = ((1, 1) : Pos))) = 2 := by
  decide

/-- Trace for the C5 counterexample: load chunk (4,0), then evict around
(0,0) with view distance 2. -/
def ops_c5 : List Op :=
  [.request (4, 0) 1, .process, .complete (1, (4, 0)), .process, .evict 0 0 2]

/-- Counterexample for C5 as stated: the border is hard-coded to 2, not
the claimed 1, so after `remove_distant_chunks(0, 0, 2)` the chunk at
(4,0) — Chebyshev distance 4 > 2 + 1 from the center — is still
loaded, though the claim's instance says every position at distance > 3
is removed. -/
theorem remove_distant_border_counterexample :
    iabs (4 - 0) > 2 + 1 ∧
    (alist_lookup (run ops_c5).chunks (4, 0)).isSome = true := by
  decide

/-- Trace for the C7 counterexample: request far-away (10,10), dispatch
and complete it, shrink the view to distance 1 around the origin, then
drain. -/
def ops_c7 : List Op :=
  [.request (10, 10) 1, .process, .complete (1, (10, 10)), .evict 0 0 1, .process]

/-- Counterexample for C7 as stated: at drain time the completed result
for (10,10) is far outside the current view range (Chebyshev distance
10 > 1 + 2), yet it is installed into the chunk store — the drain phase
checks only `chunk_pos not in self.chunks`, never the view range. -/
theorem stale_result_installed_counterexample :
    iabs (10 - 0) > 1 + 2 ∧
    (alist_lookup (run ops_c7).chunks (10, 10)).isSome = true := by
  decide

/-- Trace for the C8 counterexample: position (1,1) requested with
priority 2 then priority 1 before it resolves, then one process. -/
def ops_c8 : List Op := [.request (1, 1) 2, .request (1, 1) 1, .process]

/-- Counterexample for C8 as stated: with two queued entries for (1,1)
the priority heap pops the least tuple first, so the single generation
job is dispatched under the SECOND request's priority (1), not the first
request's (2) as the claim asserts.  (The claim's illustrative values
1.41 then 0.5 have the same ordering; integer priorities are used
here.) -/
theorem request_twice_priority_counterexample :
    (run ops_c8).submitted = [(1, ((1 : ℤ), (1 : ℤ)))] ∧ (1 : ℚ) ≠ 2 := by
  decide

/-! ### Eviction frame (C5) -/

theorem lookup_filter_distant (l : List (Pos × ℕ)) (cx cz m : ℤ) (pos : Pos) :
    alist_lookup (l.filter (fun e =>
      decide (¬(iabs (e.1.1 - cx) > m ∨ iabs (e.1.2 - cz) > m)))) pos =
      if iabs (pos.1 - cx) > m ∨ iabs (pos.2 - cz) > m then none
      else alist_lookup l pos := by
  induction l with
  | nil =>
      simp only [List.filter_nil, alist_lookup]
      split <;> rfl
  | cons e t ih =>
      by_cases hk : iabs (e.1.1 - cx) > m ∨ iabs (e.1.2 - cz) > m
      · rw [List.filter_cons_of_neg (by simp only [decide_eq_true_eq]; exact not_not_intro hk)]
        by_cases he : e.1 = pos
        · rw [ih]
          have hkpos : iabs (pos.1 - cx) > m ∨ iabs (pos.2 - cz) > m := he ▸ hk
          rw [if_pos hkpos, if_pos hkpos]
        · rw [ih]
          have : alist_lookup (e :: t) pos = alist_lookup t pos := by
            simp [alist_lookup, he]
          rw [this]
      · rw [List.filter_cons_of_pos (by simp only [decide_eq_true_eq]; exact hk)]
        by_cases he : e.1 = pos
        · have hkpos : ¬(iabs (pos.1 - cx) > m ∨ iabs (pos.2 - cz) > m) := he ▸ hk
          rw [if_neg hkpos]
          simp [alist_lookup, he]
        · have h1 : alist_lookup (e :: t.filter (fun e =>
              decide (¬(iabs (e.1.1 - cx) > m ∨ iabs (e.1.2 - cz) > m)))) pos =
              alist_lookup (t.filter (fun e =>
                decide (¬(iabs (e.1.1 - cx) > m ∨ iabs (e.1.2 - cz) > m)))) pos := by
            simp [alist_lookup, he]
          have h2 : alist_lookup (e :: t) pos = alist_lookup t pos := by
            simp [alist_lookup, he]
          rw [h1, ih, h2]

theorem remove_distant_lookup (s : ChunkManagerState) (cx cz v : ℤ) (pos : Pos) :
    alist_lookup (remove_distant_chunks s cx cz v).chunks pos =
      if iabs (pos.1 - cx) > v + 2 ∨ iabs (pos.2 - cz) > v + 2 then none
      else alist_lookup s.chunks pos := by
  simp only [remove_distant_chunks]
  exact lookup_filter_distant s.chunks cx cz (v + 2) pos

/-- C5 (amended to the code's hard-coded border of 2): eviction removes
exactly the loaded positions whose Chebyshev distance from the center
exceeds `view_distance + 2`, and leaves every other entry unchanged,
from any state. -/
theorem remove_distant_frame (s : ChunkManagerState) (cx cz v px pz : ℤ) :
    ((max |px - cx| |pz - cz| > v + 2) →
      alist_lookup (remove_distant_chunks s cx cz v).chunks (px, pz) = none) ∧
    ((max |px - cx| |pz - cz| ≤ v + 2) →
      alist_lookup (remove_distant_chunks s cx cz v).chunks (px, pz) =
        alist_lookup s.chunks (px, pz)) := by
  have hl := remove_distant_lookup s cx cz v (px, pz)
  constructor
  · intro h
    have h' : iabs (px - cx) > v + 2 ∨ iabs (pz - cz) > v + 2 := by
      rw [iabs_eq_abs, iabs_eq_abs]
      exact lt_max_iff.mp h
    rw [hl, if_pos h']
  · intro h
    have h' : ¬(iabs (px - cx) > v + 2 ∨ iabs (pz - cz) > v + 2) := by
      rw [iabs_eq_abs, iabs_eq_abs]
      push_neg
      exact max_le_iff.mp h
    rw [hl, if_neg h']

/-- Trace loading chunk (4,0), used as the concrete state for the C5
witness. -/
def ops_w5 : List Op := [.request (4, 0) 1, .process, .complete (1, (4, 0)), .process]

/-- Witness for C5: with (4,0) loaded, evicting around (0,0) with view
distance 1 removes it (4 > 1 + 2) while evicting with view distance 2
leaves its entry untouched (4 ≤ 2 + 2). -/
theorem remove_distant_frame_witness :
    alist_lookup (remove_distant_chunks (run ops_w5) 0 0 1).chunks (4, 0) = none ∧
    alist_lookup (remove_distant_chunks (run ops_w5) 0 0 2).chunks (4, 0) =
      alist_lookup (run ops_w5).chunks (4, 0) :=
  ⟨(remove_distant_frame (run ops_w5) 0 0 1 4 0).1 (by norm_num),
   (remove_distant_frame (run ops_w5) 0 0 2 4 0).2 (by norm_num)⟩

/-! ### Dispatch and drain bookkeeping lemmas -/

theorem alist_lookup_append_of_none {β : Type} {l : List ((ℤ × ℤ) × β)}
    (l' : List ((ℤ × ℤ) × β)) {pos : ℤ × ℤ}
    (h : alist_lookup l pos = none) :
    alist_lookup (l ++ l') pos = alist_lookup l' pos := by
  rw [alist_lookup_append, h]
  rfl

theorem dispatch_go_chunks : ∀ (fuel : ℕ) (s : ChunkManagerState),
    (dispatch_go fuel s).chunks = s.chunks := by
  intro fuel
  induction fuel with
  | zero => intro s; rfl
  | succ n ih =>
      intro s
      unfold dispatch_go
      split
      · split
        · rfl
        · dsimp only
          split
          · rw [ih]
          · rw [ih]
      · rfl

theorem dispatch_go_gen_mono : ∀ (fuel : ℕ) (s : ChunkManagerState) (pos : Pos),
    pos ∈ s.currently_generating →
    pos ∈ (dispatch_go fuel s).currently_generating := by
  intro fuel
  induction fuel with
  | zero => intro s pos h; exact h
  | succ n ih =>
      intro s pos h
      unfold dispatch_go
      split
      · split
        · exact h
        · dsimp only
          split
          · exact ih _ pos (List.mem_cons_of_mem _ h)
          · exact ih _ pos h
      · exact h

theorem dispatch_go_not_gen : ∀ (fuel : ℕ) (s : ChunkManagerState) (pos : Pos),
    alist_lookup s.chunks pos ≠ none →
    pos ∉ s.currently_generating →
    pos ∉ (dispatch_go fuel s).currently_generating := by
  intro fuel
  induction fuel with
  | zero => intro s pos _ hg; exact hg
  | succ n ih =>
      intro s pos hsome hg
      unfold dispatch_go
      split
      · split
        · exact hg
        · dsimp only
          split
          · rename_i hcond
            refine ih _ pos hsome ?_
            intro hmem
            rcases List.mem_cons.mp hmem with h1 | h1
            · exact hsome (h1 ▸ hcond.1)
            · exact hg h1
          · exact ih _ pos hsome hg
      · exact hg

theorem drain_lookup_some : ∀ (k : ℕ) (s : ChunkManagerState) (pos : Pos) (e : ℕ),
    alist_lookup s.chunks pos = some e →
    alist_lookup (drain s k).chunks pos = some e := by
  intro k
  induction k with
  | zero => intro s pos e h; exact h
  | succ n ih =>
      intro s pos e h
      unfold drain
      split
      · exact h
      · dsimp only
        split
        · exact ih _ pos e (alist_lookup_append_of_some _ h)
        · exact ih _ pos e h

theorem drain_not_gen : ∀ (k : ℕ) (s : ChunkManagerState) (pos : Pos),
    pos ∉ s.currently_generating →
    pos ∉ (drain s k).currently_generating := by
  intro k
  induction k with
  | zero => intro s pos h; exact h
  | succ n ih =>
      intro s pos h
      unfold drain
      split
      · exact h
      · dsimp only
        split
        · exact ih _ pos (fun hmem => h (remove_first_subset hmem))
        · exact ih _ pos (fun hmem => h (remove_first_subset hmem))

/-- One drain step when the popped position is not yet loaded: install
and clear the in-flight marker. -/
theorem drain_step (s : ChunkManagerState) (k : ℕ) (p : ℚ) (pos : Pos)
    (hpop : pop_min s.ready_meshes =
      some ((p, pos), remove_first s.ready_meshes (p, pos)))
    (hl : alist_lookup s.chunks pos = none) :
    drain s (k + 1) =
      drain { s with
                ready_meshes := remove_first s.ready_meshes (p, pos),
                chunks := s.chunks ++ [(pos, s.next_id)],
                next_id := s.next_id + 1,
                currently_generating :=
                  remove_first s.currently_generating pos } k := by
  conv_lhs => rw [drain]
  rw [hpop]
  dsimp only
  rw [if_pos hl]

/-- One drain step when the popped position is already loaded: discard
the result, clear the in-flight marker. -/
theorem drain_step_loaded (s : ChunkManagerState) (k : ℕ) (p : ℚ) (pos : Pos)
    (hpop : pop_min s.ready_meshes =
      some ((p, pos), remove_first s.ready_meshes (p, pos)))
    (hl : ¬ alist_lookup s.chunks pos = none) :
    drain s (k + 1) =
      drain { s with
                ready_meshes := remove_first s.ready_meshes (p, pos),
                currently_generating :=
                  remove_first s.currently_generating pos } k := by
  conv_lhs => rw [drain]
  rw [hpop]
  dsimp only
  rw [if_neg hl]

/-- C7 (amended): for a state whose most urgent completed result is
`(p, pos)`, one `process_queued_chunks` call always clears the in-flight
marker of `pos`; if `pos` was already loaded its stored entry is left
unchanged (the result is discarded); if it was not loaded the result is
installed — even when `pos` is out of every view range — and no error is
raised (the function is total). -/
theorem drain_install_policy (s : ChunkManagerState) (p : ℚ) (pos : Pos)
    (hnd : s.currently_generating.Nodup)
    (hmin : find_min s.ready_meshes = some (p, pos)) :
    pos ∉ (process_queued_chunks s).currently_generating ∧
    (∀ e, alist_lookup s.chunks pos = some e →
      alist_lookup (process_queued_chunks s).chunks pos = some e) ∧
    (alist_lookup s.chunks pos = none →
      (alist_lookup (process_queued_chunks s).chunks pos).isSome = true) := by
  have hpop : pop_min s.ready_meshes =
      some ((p, pos), remove_first s.ready_meshes (p, pos)) := by
    unfold pop_min
    rw [hmin]
  by_cases hl : alist_lookup s.chunks pos = none
  · have hdrain : drain s max_mesh_per_frame =
        drain { s with
                  ready_meshes := remove_first s.ready_meshes (p, pos),
                  chunks := s.chunks ++ [(pos, s.next_id)],
                  next_id := s.next_id + 1,
                  currently_generating :=
                    remove_first s.currently_generating pos } 1 :=
      drain_step s 1 p pos hpop hl
    have hproc : process_queued_chunks s =
        dispatch (drain { s with
                  ready_meshes := remove_first s.ready_meshes (p, pos),
                  chunks := s.chunks ++ [(pos, s.next_id)],
                  next_id := s.next_id + 1,
                  currently_generating :=
                    remove_first s.currently_generating pos } 1) := by
      unfold process_queued_chunks
      rw [hdrain]
    have h1 : pos ∉ (drain { s with
                  ready_meshes := remove_first s.ready_meshes (p, pos),
                  chunks := s.chunks ++ [(pos, s.next_id)],
                  next_id := s.next_id + 1,
                  currently_generating :=
                    remove_first s.currently_generating pos } 1).currently_generating :=
      drain_not_gen 1 _ pos (not_mem_remove_first hnd)
    have h2 : alist_lookup (drain { s with
                  ready_meshes := remove_first s.ready_meshes (p, pos),
                  chunks := s.chunks ++ [(pos, s.next_id)],
                  next_id := s.next_id + 1,
                  currently_generating :=
                    remove_first s.currently_generating pos } 1).chunks pos =
        some s.next_id := by
      refine drain_lookup_some 1 _ pos s.next_id ?_
      show alist_lookup (s.chunks ++ [(pos, s.next_id)]) pos = some s.next_id
      rw [alist_lookup_append_of_none _ hl]
      simp [alist_lookup]
    refine ⟨?_, ?_, ?_⟩
    · rw [hproc]
      unfold dispatch
      exact dispatch_go_not_gen _ _ pos (by rw [h2]; simp) h1
    · intro e he
      rw [hl] at he
      exact Option.noConfusion he
    · intro _
      rw [hproc]
      unfold dispatch
      rw [dispatch_go_chunks, h2]
      rfl
  · have hdrain : drain s max_mesh_per_frame =
        drain { s with
                  ready_meshes := remove_first s.ready_meshes (p, pos),
                  currently_generating :=
                    remove_first s.currently_generating pos } 1 :=
      drain_step_loaded s 1 p pos hpop hl
    have hproc : process_queued_chunks s =
        dispatch (drain { s with
                  ready_meshes := remove_first s.ready_meshes (p, pos),
                  currently_generating :=
                    remove_first s.currently_generating pos } 1) := by
      unfold process_queued_chunks
      rw [hdrain]
    obtain ⟨e0, he0⟩ := Option.ne_none_iff_exists'.mp hl
    have h1 : pos ∉ (drain { s with
                  ready_meshes := remove_first s.ready_meshes (p, pos),
                  currently_generating :=
                    remove_first s.currently_generating pos } 1).currently_generating :=
      drain_not_gen 1 _ pos (not_mem_remove_first hnd)
    have h2 : ∀ e, alist_lookup s.chunks pos = some e →
        alist_lookup (drain { s with
                  ready_meshes := remove_first s.ready_meshes (p, pos),
                  currently_generating :=
                    remove_first s.currently_generating pos } 1).chunks pos = some e :=
      fun e he => drain_lookup_some 1 _ pos e he
    refine ⟨?_, ?_, ?_⟩
    · rw [hproc]
      unfold dispatch
      exact dispatch_go_not_gen _ _ pos (by rw [h2 e0 he0]; simp) h1
    · intro e he
      rw [hproc]
      unfold dispatch
      rw [dispatch_go_chunks]
      exact h2 e he
    · intro hnone
      exact absurd hnone hl

/-- Trace leaving a completed result for (3,3) pending, used as the
concrete state for the C7 witness. -/
def ops_w7 : List Op := [.request (3, 3) 1, .process, .complete (1, (3, 3))]

/-- Witness for C7: with the result for (3,3) pending and not loaded,
one process call clears its in-flight marker and installs it. -/
theorem drain_install_policy_witness :
    ((3, 3) : Pos) ∉ (process_queued_chunks (run ops_w7)).currently_generating ∧
    (alist_lookup (process_queued_chunks (run ops_w7)).chunks (3, 3)).isSome = true :=
  ⟨(drain_install_policy (run ops_w7) 1 (3, 3) (by decide) (by decide)).1,
   (drain_install_policy (run ops_w7) 1 (3, 3) (by decide) (by decide)).2.2 (by decide)⟩

/-! ### Reachable-state invariants (C1 amended, C6) -/

theorem pop_min_some {l : List Job} {m : Job} {r : List Job}
    (h : pop_min l = some (m, r)) :
    find_min l = some m ∧ r = remove_first l m := by
  unfold pop_min at h
  cases hfm : find_min l with
  | none => rw [hfm] at h; exact Option.noConfusion h
  | some m' =>
      rw [hfm] at h
      simp only [Option.some.injEq, Prod.mk.injEq] at h
      obtain ⟨h1, h2⟩ := h
      subst h1
      exact ⟨rfl, h2.symm⟩

/-- The scheduler invariant: no Generating position is Loaded, the
in-flight set has no duplicates, and it never exceeds the concurrency
cap. -/
def Inv (s : ChunkManagerState) : Prop :=
  (∀ pos ∈ s.currently_generating, alist_lookup s.chunks pos = none) ∧
  s.currently_generating.Nodup ∧
  s.currently_generating.length ≤ max_concurrent_gen

theorem inv_init : Inv init_state := by
  refine ⟨?_, ?_, ?_⟩
  · intro pos hpos
    simp [init_state] at hpos
  · simp [init_state]
  · simp [init_state, max_concurrent_gen]

theorem request_chunk_inv (s : ChunkManagerState) (pos : Pos) (prio : ℚ)
    (h : Inv s) : Inv (request_chunk s pos prio) := by
  unfold request_chunk
  split
  · exact h
  · exact h

theorem worker_complete_inv (s : ChunkManagerState) (j : Job)
    (h : Inv s) : Inv (worker_complete s j) := by
  unfold worker_complete
  split
  · exact h
  · exact h

theorem remove_distant_inv (s : ChunkManagerState) (cx cz v : ℤ)
    (h : Inv s) : Inv (remove_distant_chunks s cx cz v) := by
  obtain ⟨h1, h2, h3⟩ := h
  refine ⟨?_, h2, h3⟩
  intro pos hpos
  rw [remove_distant_lookup]
  split
  · rfl
  · exact h1 pos hpos

theorem drain_inv : ∀ (k : ℕ) (s : ChunkManagerState), Inv s → Inv (drain s k) := by
  intro k
  induction k with
  | zero => intro s h; exact h
  | succ n ih =>
      intro s h
      cases hpop : pop_min s.ready_meshes with
      | none =>
          have heq : drain s (n + 1) = s := by
            conv_lhs => rw [drain]
            rw [hpop]
          rw [heq]
          exact h
      | some jr =>
          obtain ⟨⟨p, cpos⟩, rest⟩ := jr
          obtain ⟨hfm, hrest⟩ := pop_min_some hpop
          subst hrest
          by_cases hlc : alist_lookup s.chunks cpos = none
          · rw [drain_step s n p cpos (by unfold pop_min; rw [hfm]) hlc]
            refine ih _ ⟨?_, remove_first_nodup _ h.2.1,
              le_trans (remove_first_length_le _ _) h.2.2⟩
            intro q hq
            show alist_lookup (s.chunks ++ [(cpos, s.next_id)]) q = none
            have hq' : q ∈ s.currently_generating := remove_first_subset hq
            have hqe : cpos ≠ q := by
              intro he
              exact not_mem_remove_first h.2.1 (he ▸ hq)
            rw [alist_lookup_append_of_none _ (h.1 q hq')]
            simp [alist_lookup, hqe]
          · rw [drain_step_loaded s n p cpos (by unfold pop_min; rw [hfm]) hlc]
            refine ih _ ⟨?_, remove_first_nodup _ h.2.1,
              le_trans (remove_first_length_le _ _) h.2.2⟩
            intro q hq
            exact h.1 q (remove_first_subset hq)

theorem dispatch_go_inv : ∀ (fuel : ℕ) (s : ChunkManagerState),
    Inv s → Inv (dispatch_go fuel s) := by
  intro fuel
  induction fuel with
  | zero => intro s h; exact h
  | succ n ih =>
      intro s h
      unfold dispatch_go
      split
      · rename_i hlen
        split
        · exact h
        · dsimp only
          split
          · rename_i hcond
            refine ih _ ⟨?_, ?_, ?_⟩
            · intro q hq
              rcases List.mem_cons.mp hq with h1 | h1
              · rw [h1]
                exact hcond.1
              · exact h.1 q h1
            · exact List.nodup_cons.mpr ⟨hcond.2, h.2.1⟩
            · simp only [List.length_cons]
              exact hlen
          · exact ih _ h
      · exact h

theorem apply_op_inv (s : ChunkManagerState) (op : Op) (h : Inv s) :
    Inv (apply_op s op) := by
  cases op with
  | request pos prio => exact request_chunk_inv s pos prio h
  | process =>
      show Inv (process_queued_chunks s)
      unfold process_queued_chunks dispatch
      exact dispatch_go_inv _ _ (drain_inv _ _ h)
  | evict cx cz v => exact remove_distant_inv s cx cz v h
  | complete j => exact worker_complete_inv s j h

theorem inv_foldl : ∀ (ops : List Op) (s : ChunkManagerState),
    Inv s → Inv (ops.foldl apply_op s) := by
  intro ops
  induction ops with
  | nil => intro s h; exact h
  | cons op t ih => intro s h; exact ih _ (apply_op_inv s op h)

theorem inv_run (ops : List Op) : Inv (run ops) :=
  inv_foldl ops init_state inv_init

/-- C1 (amended): in every state reachable by any call sequence, a
position in the in-flight set is never simultaneously in the chunk
store.  (The queue, by contrast, can overlap both — see the
counterexample.) -/
theorem generating_loaded_exclusive (ops : List Op) (pos : Pos)
    (h : pos ∈ (run ops).currently_generating) :
    alist_lookup (run ops).chunks pos = none :=
  (inv_run ops).1 pos h

/-- Trace dispatching (7,7), used in the C1 witness. -/
def ops_w1 : List Op := [.request (7, 7) 1, .process]

/-- Witness for C1's amended claim: (7,7) is Generating after dispatch
and, by the theorem, not Loaded. -/
theorem generating_loaded_exclusive_witness :
    ((7, 7) : Pos) ∈ (run ops_w1).currently_generating ∧
    alist_lookup (run ops_w1).chunks (7, 7) = none :=
  ⟨by decide, generating_loaded_exclusive ops_w1 (7, 7) (by decide)⟩

/-- C6: in every reachable state — in particular after every dispatch
phase — at most `max_concurrent_gen` positions are in flight
simultaneously. -/
theorem concurrency_cap_invariant (ops : List Op) :
    (run ops).currently_generating.length ≤ max_concurrent_gen :=
  (inv_run ops).2.2

/-! ### Single-submission bound (C2 amended) -/

/-- Whether an operation is an eviction call. -/
def is_evict : Op → Bool
  | .evict _ _ _ => true
  | _ => false

/-- Auxiliary invariant for the submission bound on a fixed position:
at most one submit so far, and once one happened the position stays
Generating or Loaded (as long as no eviction occurs). -/
def SubmitInv (P : Pos) (s : ChunkManagerState) : Prop :=
  s.submitted.countP (fun j => decide (j.2 = P)) ≤ 1 ∧
  (1 ≤ s.submitted.countP (fun j => decide (j.2 = P)) →
    P ∈ s.currently_generating ∨ alist_lookup s.chunks P ≠ none)

theorem drain_submitted : ∀ (k : ℕ) (s : ChunkManagerState),
    (drain s k).submitted = s.submitted := by
  intro k
  induction k with
  | zero => intro s; rfl
  | succ n ih =>
      intro s
      unfold drain
      split
      · rfl
      · dsimp only
        split
        · rw [ih]
        · rw [ih]

theorem drain_wanted : ∀ (k : ℕ) (s : ChunkManagerState) (P : Pos),
    (P ∈ s.currently_generating ∨ alist_lookup s.chunks P ≠ none) →
    (P ∈ (drain s k).currently_generating ∨
      alist_lookup (drain s k).chunks P ≠ none) := by
  intro k
  induction k with
  | zero => intro s P h; exact h
  | succ n ih =>
      intro s P h
      cases hpop : pop_min s.ready_meshes with
      | none =>
          have heq : drain s (n + 1) = s := by
            conv_lhs => rw [drain]
            rw [hpop]
          rw [heq]
          exact h
      | some jr =>
          obtain ⟨⟨p, cpos⟩, rest⟩ := jr
          obtain ⟨hfm, hrest⟩ := pop_min_some hpop
          subst hrest
          by_cases hlc : alist_lookup s.chunks cpos = none
          · rw [drain_step s n p cpos (by unfold pop_min; rw [hfm]) hlc]
            refine ih _ P ?_
            by_cases hPc : P = cpos
            · right
              show alist_lookup (s.chunks ++ [(cpos, s.next_id)]) P ≠ none
              rw [hPc, alist_lookup_append_of_none _ hlc]
              simp [alist_lookup]
            · rcases h with hg | hl
              · left
                exact mem_remove_first_of_ne hPc hg
              · right
                obtain ⟨e, he⟩ := Option.ne_none_iff_exists'.mp hl
                show alist_lookup (s.chunks ++ [(cpos, s.next_id)]) P ≠ none
                rw [alist_lookup_append_of_some _ he]
                simp
          · rw [drain_step_loaded s n p cpos (by unfold pop_min; rw [hfm]) hlc]
            refine ih _ P ?_
            by_cases hPc : P = cpos
            · right
              show alist_lookup s.chunks P ≠ none
              rw [hPc]
              exact hlc
            · rcases h with hg | hl
              · left
                exact mem_remove_first_of_ne hPc hg
              · right
                exact hl

theorem drain_subinv (k : ℕ) (s : ChunkManagerState) (P : Pos)
    (h : SubmitInv P s) : SubmitInv P (drain s k) := by
  constructor
  · rw [drain_submitted]
    exact h.1
  · intro h1
    rw [drain_submitted] at h1
    exact drain_wanted k s P (h.2 h1)

theorem dispatch_go_subinv : ∀ (fuel : ℕ) (s : ChunkManagerState) (P : Pos),
    SubmitInv P s → SubmitInv P (dispatch_go fuel s) := by
  intro fuel
  induction fuel with
  | zero => intro s P h; exact h
  | succ n ih =>
      intro s P h
      by_cases hlen : s.currently_generating.length < max_concurrent_gen
      · cases hpop : pop_min s.generation_queue with
        | none =>
            have heq : dispatch_go (n + 1) s = s := by
              conv_lhs => rw [dispatch_go]
              rw [if_pos hlen, hpop]
            rw [heq]
            exact h
        | some jr =>
            obtain ⟨⟨p, cpos⟩, rest⟩ := jr
            by_cases hcond : alist_lookup s.chunks cpos = none ∧
                cpos ∉ s.currently_generating
            · have heq : dispatch_go (n + 1) s = dispatch_go n
                  { s with generation_queue := rest,
                           currently_generating := cpos :: s.currently_generating,
                           inflight := (p, cpos) :: s.inflight,
                           submitted := s.submitted ++ [(p, cpos)] } := by
                conv_lhs => rw [dispatch_go]
                rw [if_pos hlen, hpop]
                dsimp only
                rw [if_pos hcond]
              rw [heq]
              refine ih _ P ⟨?_, ?_⟩
              · show ((s.submitted ++ [(p, cpos)]).countP
                  (fun j => decide (j.2 = P))) ≤ 1
                by_cases hPc : cpos = P
                · have hc0 : s.submitted.countP (fun j => decide (j.2 = P)) = 0 := by
                    by_contra hne
                    rcases h.2 (Nat.one_le_iff_ne_zero.mpr hne) with hg | hl
                    · exact hcond.2 (by rw [hPc]; exact hg)
                    · exact hl (by rw [← hPc]; exact hcond.1)
                  rw [List.countP_append, hc0]
                  simp [hPc]
                · have hz : ([(p, cpos)].countP (fun j => decide (j.2 = P))) = 0 := by
                    simp [hPc]
                  rw [List.countP_append, hz]
                  simpa using h.1
              · intro h1
                by_cases hPc : cpos = P
                · left
                  show P ∈ cpos :: s.currently_generating
                  rw [hPc]
                  exact List.mem_cons_self _ _
                · have hz : ([(p, cpos)].countP (fun j => decide (j.2 = P))) = 0 := by
                    simp [hPc]
                  have h1' : 1 ≤ s.submitted.countP (fun j => decide (j.2 = P)) := by
                    have h1b : 1 ≤ ((s.submitted ++ [(p, cpos)]).countP
                        (fun j => decide (j.2 = P))) := h1
                    rw [List.countP_append, hz] at h1b
                    simpa using h1b
                  rcases h.2 h1' with hg | hl
                  · left
                    exact List.mem_cons_of_mem _ hg
                  · right
                    exact hl
            · have heq : dispatch_go (n + 1) s = dispatch_go n
                  { s with generation_queue := rest } := by
                conv_lhs => rw [dispatch_go]
                rw [if_pos hlen, hpop]
                dsimp only
                rw [if_neg hcond]
              rw [heq]
              exact ih _ P h
      · have heq : dispatch_go (n + 1) s = s := by
          conv_lhs => rw [dispatch_go]
          rw [if_neg hlen]
        rw [heq]
        exact h

theorem apply_op_subinv (s : ChunkManagerState) (P : Pos) (op : Op)
    (hop : is_evict op = false) (h : SubmitInv P s) :
    SubmitInv P (apply_op s op) := by
  cases op with
  | request pos prio =>
      show SubmitInv P (request_chunk s pos prio)
      unfold request_chunk
      split
      · exact h
      · exact h
  | process =>
      show SubmitInv P (process_queued_chunks s)
      unfold process_queued_chunks dispatch
      exact dispatch_go_subinv _ _ P (drain_subinv _ _ P h)
  | evict cx cz v => simp [is_evict] at hop
  | complete j =>
      show SubmitInv P (worker_complete s j)
      unfold worker_complete
      split
      · exact h
      · exact h

theorem subinv_foldl : ∀ (ops : List Op) (s : ChunkManagerState) (P : Pos),
    (∀ op ∈ ops, is_evict op = false) → SubmitInv P s →
    SubmitInv P (ops.foldl apply_op s) := by
  intro ops
  induction ops with
  | nil => intro s P _ h; exact h
  | cons op t ih =>
      intro s P hops h
      exact ih _ P (fun o ho => hops o (List.mem_cons_of_mem _ ho))
        (apply_op_subinv s P op (hops op (List.mem_cons_self _ _)) h)

theorem subinv_init (P : Pos) : SubmitInv P init_state := by
  constructor
  · simp [init_state]
  · intro h1
    simp [init_state] at h1

/-- C2 (amended): along any call sequence that contains no eviction, at
most one generation job is ever submitted to the worker pool for any
given position — even though a double request puts two entries in the
queue, the dispatch guard drops the duplicate. -/
theorem submit_once (ops : List Op) (P : Pos)
    (h : ∀ op ∈ ops, is_evict op = false) :
    (run ops).submitted.countP (fun j => decide (j.2 = P)) ≤ 1 :=
  (subinv_foldl ops init_state P h (subinv_init P)).1

/-- Trace requesting (2,2) twice, then processing to completion. -/
def ops_w2 : List Op :=
  [.request (2, 2) 1, .request (2, 2) 2, .process, .complete (1, (2, 2)), .process]

/-- Witness for C2's amended claim: the double-requested position is
submitted exactly once across the whole evict-free trace. -/
theorem submit_once_witness :
    (run ops_w2).submitted.countP (fun j => decide (j.2 = ((2, 2) : Pos))) ≤ 1 ∧
    (run ops_w2).submitted.countP (fun j => decide (j.2 = ((2, 2) : Pos))) = 1 :=
  ⟨submit_once ops_w2 (2, 2) (by decide), by decide⟩

/-! ### Re-request dispatch priority (C8 amended) -/

theorem pop_min_of_find_min {l : List Job} {m : Job}
    (h : find_min l = some m) :
    pop_min l = some (m, remove_first l m) := by
  unfold pop_min
  rw [h]

theorem drain_ready_nil (s : ChunkManagerState) (k : ℕ)
    (h : s.ready_meshes = []) : drain s k = s := by
  cases k with
  | zero => rfl
  | succ n =>
      conv_lhs => rw [drain]
      rw [show pop_min s.ready_meshes = none from by rw [h]; rfl]

/-- One dispatch iteration that admits the popped entry. -/
theorem dispatch_go_step_submit (s : ChunkManagerState) (fuel : ℕ) (p : ℚ)
    (cpos : Pos) (rest : List Job)
    (hlen : s.currently_generating.length < max_concurrent_gen)
    (hpop : pop_min s.generation_queue = some ((p, cpos), rest))
    (hcond : alist_lookup s.chunks cpos = none ∧
      cpos ∉ s.currently_generating) :
    dispatch_go (fuel + 1) s = dispatch_go fuel
      { s with generation_queue := rest,
               currently_generating := cpos :: s.currently_generating,
               inflight := (p, cpos) :: s.inflight,
               submitted := s.submitted ++ [(p, cpos)] } := by
  conv_lhs => rw [dispatch_go]
  rw [if_pos hlen, hpop]
  dsimp only
  rw [if_pos hcond]

/-- One dispatch iteration that drops the popped entry (its position is
already Generating or Loaded). -/
theorem dispatch_go_step_skip (s : ChunkManagerState) (fuel : ℕ) (p : ℚ)
    (cpos : Pos) (rest : List Job)
    (hlen : s.currently_generating.length < max_concurrent_gen)
    (hpop : pop_min s.generation_queue = some ((p, cpos), rest))
    (hcond : ¬(alist_lookup s.chunks cpos = none ∧
      cpos ∉ s.currently_generating)) :
    dispatch_go (fuel + 1) s = dispatch_go fuel
      { s with generation_queue := rest } := by
  conv_lhs => rw [dispatch_go]
  rw [if_pos hlen, hpop]
  dsimp only
  rw [if_neg hcond]

/-- C8 (amended): requesting the same position twice with priorities `p1`
then `p2` before it resolves creates exactly one generation job, and that
job is dispatched under the minimum (most urgent) of the two priorities —
for the spec's example (1.41 then 0.5) the second, not the first. -/
theorem request_twice_dispatch_min_priority (pos : Pos) (p1 p2 : ℚ) :
    (run [.request pos p1, .request pos p2, .process]).submitted =
      [(min p1 p2, pos)] := by
  have hrun : run [.request pos p1, .request pos p2, .process] =
      process_queued_chunks
        (request_chunk (request_chunk init_state pos p1) pos p2) := rfl
  have hr1 : request_chunk init_state pos p1 =
      { init_state with generation_queue := [(p1, pos)] } := by
    unfold request_chunk
    rw [if_pos ⟨rfl, List.not_mem_nil pos⟩]
    rfl
  have hr2 : request_chunk
      { init_state with generation_queue := [(p1, pos)] } pos p2 =
      { init_state with generation_queue := [(p2, pos), (p1, pos)] } := by
    unfold request_chunk
    rw [if_pos ⟨rfl, List.not_mem_nil pos⟩]
  rw [hrun, hr1, hr2]
  unfold process_queued_chunks
  rw [drain_ready_nil _ _ rfl]
  unfold dispatch
  have hrm2 : remove_first [(p1, pos)] (p1, pos) = [] := by
    show (if ((p1, pos) : Job) = (p1, pos) then ([] : List Job)
          else (p1, pos) :: remove_first [] (p1, pos)) = []
    rw [if_pos rfl]
  by_cases hp : p2 ≤ p1
  · have hj : job_le (p2, pos) (p1, pos) := by
      rcases lt_or_eq_of_le hp with h | h
      · exact Or.inl h
      · exact Or.inr ⟨h, Or.inr ⟨rfl, le_refl _⟩⟩
    have hfm : find_min [(p2, pos), (p1, pos)] = some (p2, pos) := by
      show (if job_le (p2, pos) (p1, pos)
            then some (p2, pos) else some (p1, pos)) = some (p2, pos)
      rw [if_pos hj]
    have hrm : remove_first [(p2, pos), (p1, pos)] (p2, pos) = [(p1, pos)] := by
      show (if ((p2, pos) : Job) = (p2, pos) then [(p1, pos)]
            else (p2, pos) :: remove_first [(p1, pos)] (p2, pos)) = [(p1, pos)]
      rw [if_pos rfl]
    have hpop1 : pop_min [(p2, pos), (p1, pos)] =
        some ((p2, pos), [(p1, pos)]) := by
      have h := pop_min_of_find_min hfm
      rw [hrm] at h
      exact h
    have hpop2 : pop_min [(p1, pos)] = some ((p1, pos), []) := by
      have h := pop_min_of_find_min
        (show find_min [(p1, pos)] = some (p1, pos) from rfl)
      rw [hrm2] at h
      exact h
    have hstep1 : dispatch_go (1 + 1)
        { init_state with generation_queue := [(p2, pos), (p1, pos)] } =
        dispatch_go 1
          { init_state with
              generation_queue := [(p1, pos)],
              currently_generating := [pos],
              inflight := [(p2, pos)],
              submitted := [(p2, pos)] } :=
      dispatch_go_step_submit
        { init_state with generation_queue := [(p2, pos), (p1, pos)] }
        1 p2 pos [(p1, pos)] (by simp [init_state, max_concurrent_gen]) hpop1
        ⟨rfl, List.not_mem_nil pos⟩
    have hstep2 : dispatch_go (0 + 1)
        { init_state with
            generation_queue := [(p1, pos)],
            currently_generating := [pos],
            inflight := [(p2, pos)],
            submitted := [(p2, pos)] } =
        dispatch_go 0
          { init_state with
              generation_queue := ([] : List Job),
              currently_generating := [pos],
              inflight := [(p2, pos)],
              submitted := [(p2, pos)] } :=
      dispatch_go_step_skip
        { init_state with
            generation_queue := [(p1, pos)],
            currently_generating := [pos],
            inflight := [(p2, pos)],
            submitted := [(p2, pos)] }
        0 p1 pos [] (by simp [max_concurrent_gen]) hpop2
        (fun hc => hc.2 (List.mem_cons_self _ _))
    show (dispatch_go (1 + 1)
      { init_state with generation_queue := [(p2, pos), (p1, pos)] }).submitted =
      [(min p1 p2, pos)]
    rw [hstep1, hstep2, min_eq_right hp]
    rfl
  · have hj : ¬ job_le (p2, pos) (p1, pos) := by
      intro hc
      rcases hc with hlt | ⟨heq, _⟩
      · exact hp (le_of_lt hlt)
      · exact hp (le_of_eq heq)
    have hne2 : ((p2, pos) : Job) ≠ (p1, pos) := by
      intro hcc
      exact hp (le_of_eq (congrArg Prod.fst hcc))
    have hfm : find_min [(p2, pos), (p1, pos)] = some (p1, pos) := by
      show (if job_le (p2, pos) (p1, pos)
            then some (p2, pos) else some (p1, pos)) = some (p1, pos)
      rw [if_neg hj]
    have hrm : remove_first [(p2, pos), (p1, pos)] (p1, pos) = [(p2, pos)] := by
      show (if ((p2, pos) : Job) = (p1, pos) then [(p1, pos)]
            else (p2, pos) :: remove_first [(p1, pos)] (p1, pos)) = [(p2, pos)]
      rw [if_neg hne2, hrm2]
    have hrm3 : remove_first [(p2, pos)] (p2, pos) = [] := by
      show (if ((p2, pos) : Job) = (p2, pos) then ([] : List Job)
            else (p2, pos) :: remove_first [] (p2, pos)) = []
      rw [if_pos rfl]
    have hpop1 : pop_min [(p2, pos), (p1, pos)] =
        some ((p1, pos), [(p2, pos)]) := by
      have h := pop_min_of_find_min hfm
      rw [hrm] at h
      exact h
    have hpop2 : pop_min [(p2, pos)] = some ((p2, pos), []) := by
      have h := pop_min_of_find_min
        (show find_min [(p2, pos)] = some (p2, pos) from rfl)
      rw [hrm3] at h
      exact h
    have hstep1 : dispatch_go (1 + 1)
        { init_state with generation_queue := [(p2, pos), (p1, pos)] } =
        dispatch_go 1
          { init_state with
              generation_queue := [(p2, pos)],
              currently_generating := [pos],
              inflight := [(p1, pos)],
              submitted := [(p1, pos)] } :=
      dispatch_go_step_submit
        { init_state with generation_queue := [(p2, pos), (p1, pos)] }
        1 p1 pos [(p2, pos)] (by simp [init_state, max_concurrent_gen]) hpop1
        ⟨rfl, List.not_mem_nil pos⟩
    have hstep2 : dispatch_go (0 + 1)
        { init_state with
            generation_queue := [(p2, pos)],
            currently_generating := [pos],
            inflight := [(p1, pos)],
            submitted := [(p1, pos)] } =
        dispatch_go 0
          { init_state with
              generation_queue := ([] : List Job),
              currently_generating := [pos],
              inflight := [(p1, pos)],
              submitted := [(p1, pos)] } :=
      dispatch_go_step_skip
        { init_state with
            generation_queue := [(p2, pos)],
            currently_generating := [pos],
            inflight := [(p1, pos)],
            submitted := [(p1, pos)] }
        0 p2 pos [] (by simp [max_concurrent_gen]) hpop2
        (fun hc => hc.2 (List.mem_cons_self _ _))
    show (dispatch_go (1 + 1)
      { init_state with generation_queue := [(p2, pos), (p1, pos)] }).submitted =
      [(min p1 p2, pos)]
    rw [hstep1, hstep2, min_eq_left (le_of_not_le hp)]
    rfl

end WorldAlpha
